import Mathlib

/-!
Verification development for the deno-redis client library.

The definitions below are a shallow embedding of the TypeScript sources:

* `protocol/reply.ts` — the `StreamBuffer` buffered reader and the RESP2
  reply decoder (`readReply`, `readBulkReplyBody`, `readArrayReplyBody`, …);
* `protocol/command.ts` — the request encoder (`_writeCommand`,
  `writeRequest`) and the batched `sendCommands` loop;
* `executor.ts` — `MuxExecutor` (FIFO queue, `isProcessing` flag, drain
  loop with retry-on-retriable-error) and `isRetriableError`;
* `pipeline.ts` — `PipelineExecutor` (`exec` queues and resolves with the
  OK sentinel, `flush` snapshots/clears and optionally frames MULTI/EXEC);
* `connection.ts` — `RedisConnection.connect` retry recursion and the
  terminal treatment of authentication failures;
* `pubsub.ts` — the per-frame dispatch of `RedisSubscriptionImpl`'s
  message iterator.

Bytes are modelled as `Nat`, TypeScript strings as their byte sequences
(`List Nat`); UTF-8 encoding/decoding between the two is the identity in
this model.  Asynchronous code is modelled by explicit state passing; the
interleaving of concurrent submissions to the multiplexer is modelled by
an event trace over a small-step transition function.
-/

/-! ## Decimal digits and the semantics of JavaScript parseInt -/

/-- Fuel-driven digit expansion; the fuel only serves to make the
recursion structural and `natDigits` always supplies enough. -/
def natDigitsF : Nat → Nat → List Nat
  | 0, _ => []
  | fuel + 1, n =>
    if n < 10 then [48 + n] else natDigitsF fuel (n / 10) ++ [48 + n % 10]

/-- ASCII decimal digits of a natural number, most significant first
(the byte form of JavaScript `String(n)` for a nonnegative integer). -/
def natDigits (n : Nat) : List Nat :=
  natDigitsF (n + 1) n

/-- Byte form of JavaScript `String(i)` for a (signed) integer argument:
an optional leading minus sign followed by the decimal digits. -/
def intDigits (i : Int) : List Nat :=
  if i < 0 then 45 :: natDigits i.natAbs else natDigits i.natAbs

/-- Value of a list of ASCII digit bytes, most significant first. -/
def digitsVal (ds : List Nat) : Nat :=
  ds.foldl (fun acc d => 10 * acc + (d - 48)) 0

/-- Whether a byte is an ASCII decimal digit. -/
def isDigitByte (b : Nat) : Bool :=
  decide (48 ≤ b) && decide (b ≤ 57)

/-- Whether a byte is JavaScript whitespace (skipped by `parseInt`). -/
def isJsSpace (b : Nat) : Bool :=
  b = 32 || b = 9 || b = 10 || b = 13 || b = 11 || b = 12

/-- Value of the longest leading digit run, as a number; `none` when there is no digit
(the `NaN` outcome of `parseInt`). -/
def parseNatLead (bs : List Nat) : Option Nat :=
  let ds := bs.takeWhile isDigitByte
  if ds.isEmpty then none else some (digitsVal ds)

/-- Semantics of JavaScript `parseInt(s)` on a byte string: skip
whitespace, accept an optional sign, then read the longest digit prefix;
`none` models the `NaN` result. -/
def parseIntJS (bs : List Nat) : Option Int :=
  match bs.dropWhile isJsSpace with
  | [] => none
  | b :: rest =>
    if b = 45 then (parseNatLead rest).map (fun n => -(n : Int))
    else if b = 43 then (parseNatLead rest).map (fun n => (n : Int))
    else (parseNatLead (b :: rest)).map (fun n => (n : Int))

/-- Byte sequence of a Lean string literal (all literals used here are
ASCII, so one byte per character). -/
def strBytes (s : String) : List Nat :=
  s.data.map Char.toNat

/-! ## The buffered reader (`StreamBuffer` in protocol/reply.ts)

The underlying `ReadableStreamDefaultReader` is modelled as a list of
pending chunks; `read()` pops the first chunk, and an empty list models
`done`.  The `Buffer` owned by the `StreamBuffer` is a plain byte list. -/

/-- State of a `StreamBuffer`: the internal buffer plus the chunks still
pending on the underlying stream reader. -/
structure BufState where
  buf : List Nat
  chunks : List (List Nat)
deriving Repr, DecidableEq

/-- Index of the first CRLF (13,10) pair, as in `StreamBuffer.findCRLF`;
a stray CR is not a terminator. -/
def findCRLF : List Nat → Option Nat
  | [] => none
  | [_] => none
  | a :: b :: rest =>
    if a = 13 ∧ b = 10 then some 0
    else (findCRLF (b :: rest)).map (· + 1)

/-- Loop body of `StreamBuffer.readLine`, recursing on the pending
chunks of the underlying stream. -/
def readLineAux (buf : List Nat) : List (List Nat) → Option (List Nat) × BufState
  | [] =>
    match findCRLF buf with
    | some i => (some (buf.take i), ⟨buf.drop (i + 2), []⟩)
    | none => if buf.isEmpty then (none, ⟨[], []⟩) else (some buf, ⟨[], []⟩)
  | c :: rest =>
    match findCRLF buf with
    | some i => (some (buf.take i), ⟨buf.drop (i + 2), c :: rest⟩)
    | none => readLineAux (buf ++ c) rest

/-- Embedding of `StreamBuffer.readLine`: loop pulling chunks until the
buffer contains a CRLF; on end of stream return the nonempty leftover
buffer as the final line, or `none` if the buffer is empty. -/
def readLine (st : BufState) : Option (List Nat) × BufState :=
  readLineAux st.buf st.chunks

/-- Loop body of `StreamBuffer.ensureBufferSize`, recursing on the
pending chunks of the underlying stream. -/
def fillToAux (n : Nat) (buf : List Nat) : List (List Nat) → BufState
  | [] => ⟨buf, []⟩
  | c :: rest =>
    if n ≤ buf.length then ⟨buf, c :: rest⟩
    else fillToAux n (buf ++ c) rest

/-- Embedding of `StreamBuffer.ensureBufferSize`: pull chunks while the
buffer holds fewer than `n` bytes; stop silently on end of stream. -/
def fillTo (n : Nat) (st : BufState) : BufState :=
  fillToAux n st.buf st.chunks

/-- Errors raised by the codec, mirroring `errors.ts` plus the generic
JavaScript failures the reply reader can produce. -/
inductive RErr where
  /-- The `EOFError` class. -/
  | eof
  /-- The `InvalidStateError` class. -/
  | invalidState
  /-- The `ErrorReplyError` class, carrying the raw error line. -/
  | errorReply (line : List Nat)
  /-- Any other JavaScript exception (`invalid line`, `RangeError`, …). -/
  | other
  /-- Out of fuel: an artifact of the embedding of general recursion,
  never produced when the fuel bounds the array nesting and length. -/
  | fuelOut
deriving Repr, DecidableEq

instance {ε α : Type _} [DecidableEq ε] [DecidableEq α] :
    DecidableEq (Except ε α) := fun a b =>
  match a, b with
  | .ok x, .ok y => decidable_of_iff (x = y) (by simp)
  | .error x, .error y => decidable_of_iff (x = y) (by simp)
  | .ok _, .error _ => isFalse (by simp)
  | .error _, .ok _ => isFalse (by simp)

/-- Embedding of `StreamBuffer.readBytes`: ensure `n` buffered bytes,
raise `InvalidStateError` on truncation, otherwise split the buffer. -/
def readBytes (n : Nat) (st : BufState) : Except RErr (List Nat × BufState) :=
  let st' := fillTo n st
  if st'.buf.length < n then .error .invalidState
  else .ok (st'.buf.take n, ⟨st'.buf.drop n, st'.chunks⟩)

/-- Embedding of `StreamBuffer.peek`: fill to `n` bytes if possible and
return up to `n` leading bytes without consuming them. -/
def peekBytes (n : Nat) (st : BufState) : Option (List Nat) × BufState :=
  let st' := fillTo n st
  if st'.buf.length = 0 then (none, st')
  else (some (st'.buf.take (min n st'.buf.length)), st')

/-! ## RESP2 reply values -/

/-- Element values produced by `readArrayReplyBody` (and `value()` on the
reply classes): simple strings and bulk strings are decoded to strings
(byte lists here), integers go through `parseInt` (`none` models `NaN`),
null bulks and null arrays become `nil`, arrays recurse. -/
inductive RValue where
  | str (s : List Nat)
  | int (i : Option Int)
  | nil
  | arr (xs : List RValue)
deriving Repr

/-- Top-level reply frames, keeping the raw body exactly as the reply
classes of protocol/reply.ts store it. -/
inductive RedisReply where
  /-- A `SimpleStringReply`: the line body after the plus sign. -/
  | simple (body : List Nat)
  /-- A `BulkReply`: `none` is the null bulk. -/
  | bulk (body : Option (List Nat))
  /-- An `IntegerReply`: the raw digit bytes after the colon. -/
  | integer (body : List Nat)
  /-- An `ArrayReply`: `none` is the null array. -/
  | array (body : Option (List RValue))
deriving Repr

mutual

/-- Boolean equality on reply values. -/
def RValue.beq : RValue → RValue → Bool
  | .str a, .str b => a == b
  | .int a, .int b => a == b
  | .nil, .nil => true
  | .arr a, .arr b => RValue.beqList a b
  | _, _ => false

/-- Boolean equality on lists of reply values. -/
def RValue.beqList : List RValue → List RValue → Bool
  | [], [] => true
  | a :: as_, b :: bs => RValue.beq a b && RValue.beqList as_ bs
  | _, _ => false

end

mutual

theorem RValue.beq_iff : ∀ a b : RValue, RValue.beq a b = true ↔ a = b
  | .str a, .str b => by simp [RValue.beq]
  | .str _, .int _ => by simp [RValue.beq]
  | .str _, .nil => by simp [RValue.beq]
  | .str _, .arr _ => by simp [RValue.beq]
  | .int _, .str _ => by simp [RValue.beq]
  | .int a, .int b => by simp [RValue.beq]
  | .int _, .nil => by simp [RValue.beq]
  | .int _, .arr _ => by simp [RValue.beq]
  | .nil, .str _ => by simp [RValue.beq]
  | .nil, .int _ => by simp [RValue.beq]
  | .nil, .nil => by simp [RValue.beq]
  | .nil, .arr _ => by simp [RValue.beq]
  | .arr _, .str _ => by simp [RValue.beq]
  | .arr _, .int _ => by simp [RValue.beq]
  | .arr _, .nil => by simp [RValue.beq]
  | .arr a, .arr b => by
    simp only [RValue.beq, RValue.arr.injEq]
    exact RValue.beqList_iff a b

theorem RValue.beqList_iff : ∀ a b : List RValue, RValue.beqList a b = true ↔ a = b
  | [], [] => by simp [RValue.beqList]
  | [], _ :: _ => by simp [RValue.beqList]
  | _ :: _, [] => by simp [RValue.beqList]
  | a :: as_, b :: bs => by
    simp only [RValue.beqList, Bool.and_eq_true, List.cons.injEq]
    exact and_congr (RValue.beq_iff a b) (RValue.beqList_iff as_ bs)

end

instance : DecidableEq RValue :=
  fun a b => decidable_of_iff _ (RValue.beq_iff a b)

instance : DecidableEq RedisReply :=
  fun a b =>
    match a, b with
    | .simple x, .simple y => decidable_of_iff (x = y) (by simp)
    | .bulk x, .bulk y => decidable_of_iff (x = y) (by simp)
    | .integer x, .integer y => decidable_of_iff (x = y) (by simp)
    | .array x, .array y => decidable_of_iff (x = y) (by simp)
    | .simple _, .bulk _ => isFalse (by simp)
    | .simple _, .integer _ => isFalse (by simp)
    | .simple _, .array _ => isFalse (by simp)
    | .bulk _, .simple _ => isFalse (by simp)
    | .bulk _, .integer _ => isFalse (by simp)
    | .bulk _, .array _ => isFalse (by simp)
    | .integer _, .simple _ => isFalse (by simp)
    | .integer _, .bulk _ => isFalse (by simp)
    | .integer _, .array _ => isFalse (by simp)
    | .array _, .simple _ => isFalse (by simp)
    | .array _, .bulk _ => isFalse (by simp)
    | .array _, .integer _ => isFalse (by simp)

/-! ## The RESP2 reply decoder (protocol/reply.ts)

`readReply` and the `*Body` readers below thread a `BufState` explicitly.
General recursion through nested arrays is embedded with a fuel
parameter; running out of fuel yields the distinguished `RErr.fuelOut`,
which never occurs once the fuel exceeds the combined nesting depth and
element count of the frame being decoded. -/

/-- Embedding of `parseSize`: `parseInt` on the line after its type byte. -/
def parseSizeJS (line : List Nat) : Option Int :=
  parseIntJS (line.drop 1)

/-- Embedding of `tryParseErrorReply`: an `ErrorReplyError` when the line
starts with `-`, otherwise the generic `invalid line` error. -/
def tryParseErrorReply (line : List Nat) : RErr :=
  if line.head? = some 45 then .errorReply line else .other

/-- Embedding of `readIntegerReplyBody`. -/
def readIntegerReplyBody (st : BufState) :
    Except RErr (List Nat × BufState) :=
  match readLine st with
  | (none, _) => .error .invalidState
  | (some line, st1) => .ok (line.drop 1, st1)

/-- Embedding of `readSimpleStringReplyBody`. -/
def readSimpleStringReplyBody (st : BufState) :
    Except RErr (List Nat × BufState) :=
  match readLine st with
  | (none, _) => .error .invalidState
  | (some line, st1) =>
    if line.head? = some 43 then .ok (line.drop 1, st1)
    else .error (tryParseErrorReply line)

/-- Embedding of `readBulkReplyBody`: parse the length after `$`; a
negative length is the null bulk; otherwise read exactly that many bytes
and a mandatory CRLF, raising `InvalidStateError` when it is absent.
The `none` (`NaN`) length branch mirrors `readBytes(NaN)` in JavaScript,
which returns an empty slice without consuming the buffer. -/
def readBulkReplyBody (st : BufState) :
    Except RErr (Option (List Nat) × BufState) :=
  match readLine st with
  | (none, _) => .error .invalidState
  | (some line, st1) =>
    if line.head? = some 36 then
      match parseSizeJS line with
      | some i =>
        if i < 0 then .ok (none, st1)
        else do
          let (bulkData, st2) ← readBytes i.toNat st1
          let (crlf, st3) ← readBytes 2 st2
          if crlf = [13, 10] then .ok (some bulkData, st3)
          else .error .invalidState
      | none => do
        let (crlf, st2) ← readBytes 2 st1
        if crlf = [13, 10] then .ok (some [], st2)
        else .error .invalidState
    else .error (tryParseErrorReply line)

mutual

/-- Embedding of `readArrayReplyBody` up to the element loop: parse the
count after `*`; `-1` is the null array; other negative or `NaN` counts
make `new Array(argCount)` raise a `RangeError`. -/
def decodeArrayBody : Nat → BufState → Except RErr (Option (List RValue) × BufState)
  | 0, _ => .error .fuelOut
  | fuel + 1, st =>
    match readLine st with
    | (none, _) => .error .invalidState
    | (some line, st1) =>
      match parseSizeJS line with
      | some i =>
        if i = -1 then .ok (none, st1)
        else if i < 0 then .error .other
        else (decodeElems fuel i.toNat st1).map (fun p => (some p.1, p.2))
      | none => .error .other

/-- Embedding of the element loop of `readArrayReplyBody`: peek one byte,
dispatch on the type code, store the element's converted value, recurse. -/
def decodeElems : Nat → Nat → BufState → Except RErr (List RValue × BufState)
  | _, 0, st => .ok ([], st)
  | 0, _ + 1, _ => .error .fuelOut
  | fuel + 1, count + 1, st =>
    match peekBytes 1 st with
    | (none, _) => .error .eof
    | (some pk, st1) =>
      match pk.head? with
      | none => .error .eof
      | some code =>
        if code = 43 then do
          let (body, st2) ← readSimpleStringReplyBody st1
          let (rest, st3) ← decodeElems fuel count st2
          .ok (.str body :: rest, st3)
        else if code = 36 then do
          let (body, st2) ← readBulkReplyBody st1
          let (rest, st3) ← decodeElems fuel count st2
          .ok ((match body with | some b => .str b | none => .nil) :: rest, st3)
        else if code = 58 then do
          let (body, st2) ← readIntegerReplyBody st1
          let (rest, st3) ← decodeElems fuel count st2
          .ok (.int (parseIntJS body) :: rest, st3)
        else if code = 42 then do
          let (body, st2) ← decodeArrayBody fuel st1
          let (rest, st3) ← decodeElems fuel count st2
          .ok ((match body with | some xs => .arr xs | none => .nil) :: rest, st3)
        else .error .invalidState

end

/-- Embedding of `readReply`: peek the type byte (EOF when the stream is
exhausted), give error replies their dedicated raise, then dispatch to
the body reader for the frame type; unknown codes are `InvalidStateError`. -/
def readReplyF (fuel : Nat) (st : BufState) :
    Except RErr (RedisReply × BufState) :=
  match peekBytes 1 st with
  | (none, _) => .error .eof
  | (some firstByte, st1) =>
    match firstByte.head? with
    | none => .error .eof
    | some code =>
      if code = 45 then
        match readLine st1 with
        | (some line, _) => .error (tryParseErrorReply line)
        | (none, _) => .error .invalidState
      else if code = 58 then
        (readIntegerReplyBody st1).map (fun p => (.integer p.1, p.2))
      else if code = 43 then
        (readSimpleStringReplyBody st1).map (fun p => (.simple p.1, p.2))
      else if code = 36 then
        (readBulkReplyBody st1).map (fun p => (.bulk p.1, p.2))
      else if code = 42 then
        (decodeArrayBody fuel st1).map (fun p => (.array p.1, p.2))
      else .error .invalidState

/-- Embedding of `value()` on the reply classes. -/
def RedisReply.valueOf : RedisReply → RValue
  | .simple b => .str b
  | .bulk (some b) => .str b
  | .bulk none => .nil
  | .integer b => .int (parseIntJS b)
  | .array (some xs) => .arr xs
  | .array none => .nil

/-- Embedding of `array()` on the reply classes: the array body for an
`ArrayReply`, an `InvalidStateError` for every other reply shape
(`BaseReply.array`). -/
def RedisReply.arrayAccess : RedisReply → Except RErr (Option (List RValue))
  | .array b => .ok b
  | _ => .error .invalidState

/-- One call of `readReply` as issued by `sendCommand`: the `StreamBuffer`
is constructed locally over the stream reader with an empty buffer, and
when the call returns only the underlying stream survives — whatever
remained in the local buffer beyond the decoded frame is discarded with
it. -/
def readReplySession (fuel : Nat) (chunks : List (List Nat)) :
    Except RErr (RedisReply × List (List Nat)) :=
  match readReplyF fuel ⟨[], chunks⟩ with
  | .ok (r, st) => .ok (r, st.chunks)
  | .error e => .error e

/-! ## The request encoder (protocol/command.ts) -/

/-- Command arguments (`RedisValue` in protocol/types.ts as used by
`_writeCommand`): text, signed integer, byte buffer, or the two dropped
shapes `undefined` and `null`. -/
inductive RedisValue where
  | str (s : List Nat)
  | num (i : Int)
  | bytes (b : List Nat)
  | undef
  | null
deriving Repr, DecidableEq

/-- The filter `args.filter((v) => v !== void 0 && v !== null)` applied
by `_writeCommand` before anything is written. -/
def filterArgs (args : List RedisValue) : List RedisValue :=
  args.filter (fun v => v ≠ .undef ∧ v ≠ .null)

/-- Bytes of one argument: `arg instanceof Uint8Array ? arg :
encoder.encode(String(arg))`; for the dropped shapes (never reached after
the filter) `String` would yield the literal words. -/
def argBytes : RedisValue → List Nat
  | .str s => s
  | .num i => intDigits i
  | .bytes b => b
  | .undef => strBytes "undefined"
  | .null => strBytes "null"

/-- One length-prefixed bulk element as `_writeCommand` emits it:
`$<len>\r\n<bytes>\r\n`. -/
def encodeBulk (payload : List Nat) : List Nat :=
  36 :: natDigits payload.length ++ [13, 10] ++ payload ++ [13, 10]

/-- Embedding of `_writeCommand`/`writeRequest`: the whole request frame
assembled into one buffer — `*<1+n>\r\n`, the command as a bulk element,
then each filtered argument as a bulk element. -/
def encodeRequest (command : List Nat) (args : List RedisValue) : List Nat :=
  let filtered := filterArgs args
  42 :: natDigits (1 + filtered.length) ++ [13, 10]
    ++ encodeBulk command
    ++ (filtered.map (fun a => encodeBulk (argBytes a))).flatten

/-! ## Digit and reader lemmas -/

theorem natDigitsF_eq_of_lt :
    ∀ fuel₁ fuel₂ n, n < fuel₁ → n < fuel₂ →
      natDigitsF fuel₁ n = natDigitsF fuel₂ n := by
  intro fuel₁
  induction fuel₁ with
  | zero => omega
  | succ f₁ ih =>
    intro fuel₂ n h₁ h₂
    match fuel₂, h₂ with
    | f₂ + 1, h₂ =>
      simp only [natDigitsF]
      split
      · rfl
      · rename_i hge
        have hd : n / 10 < n := Nat.div_lt_self (by omega) (by omega)
        rw [ih f₂ (n / 10) (by omega) (by omega)]

theorem natDigits_unfold (n : Nat) :
    natDigits n = if n < 10 then [48 + n] else natDigits (n / 10) ++ [48 + n % 10] := by
  unfold natDigits
  conv_lhs => rw [natDigitsF]
  split
  · rfl
  · rename_i hge
    have hd : n / 10 < n := Nat.div_lt_self (by omega) (by omega)
    rw [natDigitsF_eq_of_lt n (n / 10 + 1) (n / 10) (by omega) (by omega)]

theorem natDigits_ne_nil (n : Nat) : natDigits n ≠ [] := by
  rw [natDigits_unfold]
  split
  · simp
  · simp

theorem natDigits_mem_range {n d : Nat} (h : d ∈ natDigits n) :
    48 ≤ d ∧ d ≤ 57 := by
  induction n using Nat.strong_induction_on with
  | _ n ih =>
    rw [natDigits_unfold] at h
    split at h
    · rename_i hlt
      simp only [List.mem_singleton] at h
      omega
    · rename_i hge
      rw [List.mem_append] at h
      rcases h with h | h
      · exact ih (n / 10) (Nat.div_lt_self (by omega) (by omega)) h
      · simp only [List.mem_singleton] at h
        have : n % 10 < 10 := Nat.mod_lt _ (by omega)
        omega

theorem digitsVal_append_single (a : List Nat) (d : Nat) :
    digitsVal (a ++ [d]) = 10 * digitsVal a + (d - 48) := by
  simp [digitsVal, List.foldl_append]

theorem digitsVal_natDigits (n : Nat) : digitsVal (natDigits n) = n := by
  induction n using Nat.strong_induction_on with
  | _ n ih =>
    rw [natDigits_unfold]
    split
    · rename_i hlt
      simp [digitsVal]
    · rename_i hge
      rw [digitsVal_append_single,
        ih (n / 10) (Nat.div_lt_self (by omega) (by omega))]
      omega

theorem takeWhile_digits_natDigits (n : Nat) :
    (natDigits n).takeWhile isDigitByte = natDigits n := by
  apply List.takeWhile_eq_self_iff.mpr
  intro d hd
  have := natDigits_mem_range hd
  simp [isDigitByte]
  omega

theorem parseNatLead_natDigits (n : Nat) :
    parseNatLead (natDigits n) = some n := by
  unfold parseNatLead
  rw [takeWhile_digits_natDigits]
  simp [natDigits_ne_nil n, List.isEmpty_iff, digitsVal_natDigits]

theorem natDigits_head_not_special (n : Nat) :
    ∃ d ds, natDigits n = d :: ds ∧ 48 ≤ d ∧ d ≤ 57 := by
  match h : natDigits n with
  | [] => exact absurd h (natDigits_ne_nil n)
  | d :: ds =>
    have : d ∈ natDigits n := by rw [h]; exact List.mem_cons_self _ _
    exact ⟨d, ds, rfl, natDigits_mem_range this⟩

theorem parseIntJS_natDigits (n : Nat) : parseIntJS (natDigits n) = some n := by
  obtain ⟨d, ds, hd, h48, h57⟩ := natDigits_head_not_special n
  unfold parseIntJS
  rw [hd]
  have hns : ¬(isJsSpace d = true) := by simp [isJsSpace]; omega
  rw [List.dropWhile_cons_of_neg hns]
  have hd45 : ¬(d = 45) := by omega
  have hd43 : ¬(d = 43) := by omega
  have hpp := parseNatLead_natDigits n
  rw [hd] at hpp
  simp only [if_neg hd45, if_neg hd43, hpp, Option.map_some]
  rfl

theorem parseIntJS_intDigits (i : Int) : parseIntJS (intDigits i) = some i := by
  unfold intDigits
  split
  · rename_i hneg
    unfold parseIntJS
    rw [List.dropWhile_cons_of_neg (by simp [isJsSpace])]
    have habs : (i.natAbs : Int) = -i := Int.ofNat_natAbs_of_nonpos (le_of_lt hneg)
    simp only [if_pos rfl, parseNatLead_natDigits, Option.map_some,
      Option.some.injEq]
    simp [habs]
  · rename_i hpos
    have h : (i.natAbs : Int) = i := Int.natAbs_of_nonneg (by omega)
    rw [parseIntJS_natDigits]
    simp [h]

theorem findCRLF_prefix :
    ∀ (a : List Nat), (∀ x ∈ a, x ≠ 13) → ∀ r,
      findCRLF (a ++ 13 :: 10 :: r) = some a.length
  | [], _, r => by simp [findCRLF]
  | [x], h, r => by
    have hx : x ≠ 13 := h x (by simp)
    simp only [List.cons_append, List.nil_append, findCRLF]
    rw [if_neg (by simp [hx]), if_pos (by simp)]
    rfl
  | x :: y :: a, h, r => by
    have hx : x ≠ 13 := h x (by simp)
    have ih := findCRLF_prefix (y :: a) (fun z hz => h z (by simp at hz ⊢; tauto)) r
    simp only [List.cons_append] at ih ⊢
    rw [findCRLF, if_neg (by simp [hx]), ih]
    simp

theorem readLineAux_crlf (a r : List Nat) (chunks : List (List Nat))
    (h : ∀ x ∈ a, x ≠ 13) :
    readLineAux (a ++ 13 :: 10 :: r) chunks = (some a, ⟨r, chunks⟩) := by
  have hf := findCRLF_prefix a h r
  have htake : (a ++ 13 :: 10 :: r).take a.length = a := by
    simp [List.take_left']
  have hdrop : (a ++ 13 :: 10 :: r).drop (a.length + 2) = r := by
    have : a ++ 13 :: 10 :: r = (a ++ [13, 10]) ++ r := by simp
    rw [this, List.drop_left' (by simp)]
  cases chunks with
  | nil => rw [readLineAux, hf]; simp [htake, hdrop]
  | cons c rest => rw [readLineAux, hf]; simp [htake, hdrop]

theorem readLine_crlf (a r : List Nat) (chunks : List (List Nat))
    (h : ∀ x ∈ a, x ≠ 13) :
    readLine ⟨a ++ 13 :: 10 :: r, chunks⟩ = (some a, ⟨r, chunks⟩) :=
  readLineAux_crlf a r chunks h

theorem fillTo_of_le (n : Nat) (buf : List Nat) (chunks : List (List Nat))
    (h : n ≤ buf.length) : fillTo n ⟨buf, chunks⟩ = ⟨buf, chunks⟩ := by
  cases chunks with
  | nil => rfl
  | cons c rest => unfold fillTo fillToAux; rw [if_pos h]

theorem readBytes_exact (p r : List Nat) (chunks : List (List Nat)) (n : Nat)
    (h : p.length = n) :
    readBytes n ⟨p ++ r, chunks⟩ = .ok (p, ⟨r, chunks⟩) := by
  unfold readBytes
  rw [fillTo_of_le n (p ++ r) chunks (by simp; omega)]
  simp only
  rw [if_neg (by simp; omega)]
  subst h
  simp [List.take_left', List.drop_left']

theorem peekBytes_one_cons (b : Nat) (bs : List Nat) (chunks : List (List Nat)) :
    peekBytes 1 ⟨b :: bs, chunks⟩ = (some [b], ⟨b :: bs, chunks⟩) := by
  unfold peekBytes
  rw [fillTo_of_le 1 (b :: bs) chunks (by simp)]
  simp [List.take_one, Nat.min_eq_left (by simp : 1 ≤ (b :: bs).length)]

/-! ## Bulk-frame decoding lemmas -/

theorem header_no_cr (n : Nat) : ∀ x ∈ 36 :: natDigits n, x ≠ 13 := by
  intro x hx
  rcases List.mem_cons.mp hx with h | h
  · omega
  · have := natDigits_mem_range h
    omega

theorem readBulkReplyBody_ok (p rest : List Nat) (chunks : List (List Nat)) :
    readBulkReplyBody ⟨36 :: natDigits p.length ++ 13 :: 10 :: (p ++ 13 :: 10 :: rest), chunks⟩
      = .ok (some p, ⟨rest, chunks⟩) := by
  unfold readBulkReplyBody
  rw [show (36 :: natDigits p.length ++ 13 :: 10 :: (p ++ 13 :: 10 :: rest) : List Nat)
      = (36 :: natDigits p.length) ++ 13 :: 10 :: (p ++ 13 :: 10 :: rest) by simp]
  rw [readLine_crlf _ _ _ (header_no_cr p.length)]
  simp only [List.head?_cons, Option.some.injEq]
  rw [if_pos trivial]
  have hsz : parseSizeJS (36 :: natDigits p.length) = some (p.length : Int) := by
    unfold parseSizeJS
    simp [parseIntJS_natDigits]
  rw [hsz]
  simp only
  rw [if_neg (by omega)]
  have h1 : readBytes (p.length : Int).toNat ⟨p ++ 13 :: 10 :: rest, chunks⟩
      = .ok (p, ⟨13 :: 10 :: rest, chunks⟩) := by
    rw [readBytes_exact p (13 :: 10 :: rest) chunks _ (by simp)]
  have h2 : readBytes 2 ⟨13 :: 10 :: rest, chunks⟩ = .ok ([13, 10], ⟨rest, chunks⟩) := by
    rw [show (13 :: 10 :: rest : List Nat) = [13, 10] ++ rest by simp]
    exact readBytes_exact [13, 10] rest chunks 2 rfl
  rw [h1]
  simp only [bind, Except.bind]
  rw [h2]
  simp

theorem readBulkReplyBody_badTail (p rest : List Nat) (b1 b2 : Nat)
    (chunks : List (List Nat)) (h : ¬(b1 = 13 ∧ b2 = 10)) :
    readBulkReplyBody ⟨36 :: natDigits p.length ++ 13 :: 10 :: (p ++ b1 :: b2 :: rest), chunks⟩
      = .error .invalidState := by
  unfold readBulkReplyBody
  rw [show (36 :: natDigits p.length ++ 13 :: 10 :: (p ++ b1 :: b2 :: rest) : List Nat)
      = (36 :: natDigits p.length) ++ 13 :: 10 :: (p ++ b1 :: b2 :: rest) by simp]
  rw [readLine_crlf _ _ _ (header_no_cr p.length)]
  simp only [List.head?_cons, Option.some.injEq]
  rw [if_pos trivial]
  have hsz : parseSizeJS (36 :: natDigits p.length) = some (p.length : Int) := by
    unfold parseSizeJS
    simp [parseIntJS_natDigits]
  rw [hsz]
  simp only
  rw [if_neg (by omega)]
  have h1 : readBytes (p.length : Int).toNat ⟨p ++ b1 :: b2 :: rest, chunks⟩
      = .ok (p, ⟨b1 :: b2 :: rest, chunks⟩) := by
    rw [readBytes_exact p (b1 :: b2 :: rest) chunks _ (by simp)]
  have h2 : readBytes 2 ⟨b1 :: b2 :: rest, chunks⟩ = .ok ([b1, b2], ⟨rest, chunks⟩) := by
    rw [show (b1 :: b2 :: rest : List Nat) = [b1, b2] ++ rest by simp]
    exact readBytes_exact [b1, b2] rest chunks 2 rfl
  rw [h1]
  simp only [bind, Except.bind]
  rw [h2]
  simp only [bind, Except.bind]
  rw [if_neg (by simp; tauto)]

theorem readReplyF_bulk_dispatch (b : Nat) (bs : List Nat)
    (chunks : List (List Nat)) (fuel : Nat) (h : b = 36) :
    readReplyF fuel ⟨b :: bs, chunks⟩
      = (readBulkReplyBody ⟨b :: bs, chunks⟩).map (fun p => (.bulk p.1, p.2)) := by
  subst h
  unfold readReplyF
  rw [peekBytes_one_cons]
  simp

/-- C5: decoding a bulk frame.  A `$` header with length −1 decodes to the
null bulk; a `$0` header followed by CRLF decodes to an empty byte string,
which is not equal to the null bulk; and for N > 0 the decoder reads
exactly the N payload bytes followed by a mandatory CRLF (whatever else
follows is left unconsumed), rejecting the frame with `InvalidStateError`
when the two bytes after the payload are not CRLF, or when the stream
ends before them. -/
theorem C5_bulk_frame_decoding :
    (readReplyF 1 ⟨strBytes "$-1\r\n", []⟩ = .ok (.bulk none, ⟨[], []⟩))
    ∧ (readReplyF 1 ⟨strBytes "$0\r\n\r\n", []⟩ = .ok (.bulk (some []), ⟨[], []⟩))
    ∧ RedisReply.bulk (some []) ≠ RedisReply.bulk none
    ∧ (∀ (n : Nat) (payload rest : List Nat) (fuel : Nat),
        payload.length = n → 0 < n →
        readReplyF fuel ⟨36 :: natDigits n ++ 13 :: 10 :: (payload ++ 13 :: 10 :: rest), []⟩
          = .ok (.bulk (some payload), ⟨rest, []⟩))
    ∧ (∀ (n : Nat) (payload rest : List Nat) (b1 b2 : Nat) (fuel : Nat),
        payload.length = n → 0 < n → ¬(b1 = 13 ∧ b2 = 10) →
        readReplyF fuel ⟨36 :: natDigits n ++ 13 :: 10 :: (payload ++ b1 :: b2 :: rest), []⟩
          = .error .invalidState)
    ∧ (∀ (n : Nat) (payload : List Nat) (fuel : Nat),
        payload.length = n → 0 < n →
        readReplyF fuel ⟨36 :: natDigits n ++ 13 :: 10 :: payload, []⟩
          = .error .invalidState) := by
  refine ⟨by decide, by decide, by decide, ?_, ?_, ?_⟩
  · intro n payload rest fuel hlen hpos
    subst hlen
    rw [show (36 :: natDigits payload.length ++ 13 :: 10 :: (payload ++ 13 :: 10 :: rest)
        : List Nat) = 36 :: (natDigits payload.length ++ 13 :: 10 :: (payload ++ 13 :: 10 :: rest)) by simp]
    rw [readReplyF_bulk_dispatch 36 _ [] fuel rfl]
    rw [show (36 :: (natDigits payload.length ++ 13 :: 10 :: (payload ++ 13 :: 10 :: rest))
        : List Nat) = 36 :: natDigits payload.length ++ 13 :: 10 :: (payload ++ 13 :: 10 :: rest) by simp]
    rw [readBulkReplyBody_ok]
    rfl
  · intro n payload rest b1 b2 fuel hlen hpos hbad
    subst hlen
    rw [show (36 :: natDigits payload.length ++ 13 :: 10 :: (payload ++ b1 :: b2 :: rest)
        : List Nat) = 36 :: (natDigits payload.length ++ 13 :: 10 :: (payload ++ b1 :: b2 :: rest)) by simp]
    rw [readReplyF_bulk_dispatch 36 _ [] fuel rfl]
    rw [show (36 :: (natDigits payload.length ++ 13 :: 10 :: (payload ++ b1 :: b2 :: rest))
        : List Nat) = 36 :: natDigits payload.length ++ 13 :: 10 :: (payload ++ b1 :: b2 :: rest) by simp]
    rw [readBulkReplyBody_badTail _ _ _ _ _ hbad]
    rfl
  · intro n payload fuel hlen hpos
    subst hlen
    rw [show (36 :: natDigits payload.length ++ 13 :: 10 :: payload : List Nat)
        = 36 :: (natDigits payload.length ++ 13 :: 10 :: payload) by simp]
    rw [readReplyF_bulk_dispatch 36 _ [] fuel rfl]
    unfold readBulkReplyBody
    rw [show (36 :: (natDigits payload.length ++ 13 :: 10 :: payload) : List Nat)
        = (36 :: natDigits payload.length) ++ 13 :: 10 :: payload by simp]
    rw [readLine_crlf _ _ _ (header_no_cr payload.length)]
    simp only [List.head?_cons, Option.some.injEq]
    rw [if_pos trivial]
    have hsz : parseSizeJS (36 :: natDigits payload.length) = some (payload.length : Int) := by
      unfold parseSizeJS
      simp [parseIntJS_natDigits]
    rw [hsz]
    simp only
    rw [if_neg (by omega)]
    have h1 : readBytes (payload.length : Int).toNat ⟨payload, []⟩
        = .ok (payload, ⟨[], []⟩) := by
      have := readBytes_exact payload [] [] payload.length rfl
      simpa using this
    rw [h1]
    simp only [bind, Except.bind]
    rfl

/-- Witness for `C5_bulk_frame_decoding` at concrete frames: `$3` with
payload `foo` terminated by CRLF decodes to the bulk `foo` leaving the
trailing byte, while the same frame with `XY` in place of the CRLF is
rejected with `InvalidStateError`. -/
theorem C5_bulk_frame_decoding_witness :
    readReplyF 0 ⟨36 :: natDigits 3 ++ 13 :: 10 :: (strBytes "foo" ++ 13 :: 10 :: [88]), []⟩
      = .ok (.bulk (some (strBytes "foo")), ⟨[88], []⟩)
    ∧ readReplyF 0 ⟨36 :: natDigits 3 ++ 13 :: 10 :: (strBytes "foo" ++ 88 :: 89 :: []), []⟩
      = .error .invalidState :=
  ⟨C5_bulk_frame_decoding.2.2.2.1 3 (strBytes "foo") [88] 0 (by decide) (by decide),
   C5_bulk_frame_decoding.2.2.2.2.1 3 (strBytes "foo") [] 88 89 0 (by decide) (by decide)
     (by decide)⟩

/-- C3 (refuted by the code): each `sendCommand` call runs `readReply`,
which constructs a fresh `StreamBuffer` over the stream reader; bytes
pulled from the stream beyond the decoded frame live only in that local
buffer and are discarded when the call returns.  With the two integer
frames `:1` and `:2` delivered in a single chunk, the first decode call
consumes the whole chunk and returns `1`, after which nothing remains on
the stream: the second decode call fails with `EOFError` instead of
returning `2` as the claim requires. -/
theorem C3_trailing_bytes_lost :
    readReplySession 2 [strBytes ":1\r\n:2\r\n"] = .ok (.integer (strBytes "1"), [])
    ∧ readReplySession 2 [] = .error .eof := by
  exact ⟨by decide, by decide⟩

/-! ## Round trip: request encoding then array decoding -/

theorem decodeElems_bulks :
    ∀ (ps : List (List Nat)) (fuel : Nat) (rest : List Nat),
      ps.length ≤ fuel →
      decodeElems fuel ps.length ⟨(ps.map encodeBulk).flatten ++ rest, []⟩
        = .ok (ps.map (fun p => RValue.str p), ⟨rest, []⟩)
  | [], fuel, rest, _ => by
    simp [decodeElems]
  | p :: ps, fuel, rest, h => by
    match fuel, h with
    | f + 1, h =>
      have hbuf : ((p :: ps).map encodeBulk).flatten ++ rest
          = 36 :: (natDigits p.length ++ 13 :: 10 ::
              (p ++ 13 :: 10 :: ((ps.map encodeBulk).flatten ++ rest))) := by
        simp [encodeBulk]
      rw [show (p :: ps).length = ps.length + 1 from rfl, hbuf]
      rw [decodeElems, peekBytes_one_cons]
      simp only [List.head?_cons]
      rw [if_neg (by decide), if_pos trivial]
      have hb := readBulkReplyBody_ok p ((ps.map encodeBulk).flatten ++ rest) []
      rw [show (36 :: (natDigits p.length ++ 13 :: 10 ::
          (p ++ 13 :: 10 :: ((ps.map encodeBulk).flatten ++ rest))) : List Nat)
          = 36 :: natDigits p.length ++ 13 :: 10 ::
            (p ++ 13 :: 10 :: ((ps.map encodeBulk).flatten ++ rest)) by simp]
      rw [hb]
      simp only [bind, Except.bind]
      rw [decodeElems_bulks ps f rest (by simp at h; omega)]
      rfl

/-- C4: for every command and argument list (text, integer, or byte
arguments, possibly interleaved with undefined/null), decoding the byte
output of the request encoder with the RESP2 array decoder succeeds,
consumes the frame exactly, and yields an array whose first element is
the command and whose remaining elements are the arguments with the
undefined/null entries filtered out — matching the element count the
encoder computed after filtering. -/
theorem C4_encode_decode_roundtrip (cmd : List Nat) (args : List RedisValue) :
    readReplyF (args.length + 2) ⟨encodeRequest cmd args, []⟩
      = .ok (.array (some (.str cmd :: (filterArgs args).map (fun a => .str (argBytes a)))),
          ⟨[], []⟩) := by
  have hle : (filterArgs args).length ≤ args.length := List.length_filter_le _ _
  have hbuf : encodeRequest cmd args
      = 42 :: (natDigits (1 + (filterArgs args).length) ++ 13 :: 10 ::
          (((cmd :: (filterArgs args).map argBytes).map encodeBulk).flatten ++ [])) := by
    simp [encodeRequest, encodeBulk, List.map_map, Function.comp_def]
  rw [hbuf]
  unfold readReplyF
  rw [peekBytes_one_cons]
  simp only [List.head?_cons]
  rw [if_neg (by decide), if_neg (by decide), if_neg (by decide), if_neg (by decide),
    if_pos trivial]
  rw [show (args.length + 2) = (args.length + 1) + 1 from rfl]
  rw [decodeArrayBody]
  rw [show (42 :: (natDigits (1 + (filterArgs args).length) ++ 13 :: 10 ::
      (((cmd :: (filterArgs args).map argBytes).map encodeBulk).flatten ++ [])) : List Nat)
      = (42 :: natDigits (1 + (filterArgs args).length)) ++ 13 :: 10 ::
        (((cmd :: (filterArgs args).map argBytes).map encodeBulk).flatten ++ []) by simp]
  have hnocr : ∀ x ∈ 42 :: natDigits (1 + (filterArgs args).length), x ≠ 13 := by
    intro x hx
    rcases List.mem_cons.mp hx with h | h
    · omega
    · have := natDigits_mem_range h
      omega
  rw [readLine_crlf _ _ _ hnocr]
  have hsz : parseSizeJS (42 :: natDigits (1 + (filterArgs args).length))
      = some ((1 + (filterArgs args).length : Nat) : Int) := by
    unfold parseSizeJS
    simp [parseIntJS_natDigits]
  simp only [hsz]
  rw [if_neg (by omega), if_neg (by omega)]
  have hcnt : ((1 + (filterArgs args).length : Nat) : Int).toNat
      = (cmd :: (filterArgs args).map argBytes).length := by
    simp
    omega
  rw [hcnt]
  rw [decodeElems_bulks (cmd :: (filterArgs args).map argBytes) (args.length + 1) []
    (by simp; omega)]
  simp [List.map_map]
  rfl

/-! ## The multiplexing executor (executor.ts)

`MuxExecutor` keeps a FIFO `queue`, a single `isProcessing` flag, and a
drain loop `dequeue` that sends the head command, awaits its reply, and
resolves or rejects the head's caller.  Cooperative interleaving between
callers and the drain is modelled by an event trace: `submit` is `exec`
pushing a record, `beginSend` is a `dequeue` entry observing the guard
and taking the head in flight, and `sendSuccess`/`sendFailure` are the
completion of the awaited `sendCommand` together with the `catch`
handling (`sendFailure` carries the connection's closed flag at the time
of the failure and the outcome of the awaited `reconnect`). -/

/-- A queued command record: caller tag, command name and arguments (the
resolver/rejecter pair is represented by the caller tag). -/
structure QueuedCmd where
  id : Nat
  command : List Nat
  args : List RedisValue
deriving Repr, DecidableEq

/-- Error classes seen by the executor, mirroring the `Deno.errors`
classes plus the library's own errors. -/
inductive ErrKind where
  | badResource
  | brokenPipe
  | connAborted
  | connRefused
  | connReset
  | eofErr
  | errorReply
  | connectionClosed
  | otherErr
deriving Repr, DecidableEq

/-- Embedding of `isRetriableError`: never retriable once the connection
was explicitly closed, otherwise exactly the listed transport classes
and `EOFError`. -/
def isRetriableError (e : ErrKind) (connIsClosed : Bool) : Bool :=
  if connIsClosed then false
  else
    match e with
    | .badResource | .brokenPipe | .connAborted | .connRefused
    | .connReset | .eofErr => true
    | _ => false

/-- Outcome of the awaited `connection.reconnect()` in the retry branch. -/
inductive ReconnectOutcome where
  | rOk
  | rFail (e : ErrKind)
deriving Repr, DecidableEq

/-- A delivery to a caller: its promise resolved with a reply, or
rejected with an error. -/
inductive Delivery where
  | resolved (c : QueuedCmd) (r : RValue)
  | rejected (c : QueuedCmd) (e : ErrKind)
deriving Repr, DecidableEq

/-- The caller a delivery went to. -/
def Delivery.cmd : Delivery → QueuedCmd
  | .resolved c _ => c
  | .rejected c _ => c

/-- State of a `MuxExecutor`: the FIFO queue, the command currently in
flight on the connection (at most one, kept as a list so that the bound
is a theorem rather than a typing artifact), the `isProcessing` flag and
the deliveries made so far. -/
structure MuxState where
  queue : List QueuedCmd
  inflight : List QueuedCmd
  processing : Bool
  deliveries : List Delivery
deriving Repr, DecidableEq

/-- The executor starts with an empty queue and no drain running. -/
def MuxState.init : MuxState := ⟨[], [], false, []⟩

/-- Interleaving events of callers and the drain loop. -/
inductive MuxEvent where
  | submit (c : QueuedCmd)
  | beginSend
  | sendSuccess (r : RValue)
  | sendFailure (e : ErrKind) (closedNow : Bool) (rec : ReconnectOutcome)
deriving Repr

/-- One step of the executor.  `submit` appends to the FIFO (`exec`);
`beginSend` is a `dequeue` entry: it returns at once when `isProcessing`
is set or the queue is empty, otherwise marks processing and puts the
head in flight without popping it; `sendSuccess` resolves the head's
caller and pops (`item.resolve`/`shift`); `sendFailure` follows the
`catch` of `dequeue`: with positive `maxRetryCount` and a retriable
error, a successful reconnect keeps the head queued for the next drain
iteration, a failed reconnect rejects the caller with the reconnect
error and pops, and a non-retriable error rejects with the original
error and pops. -/
def muxStep (maxRetryCount : Nat) (st : MuxState) : MuxEvent → MuxState
  | .submit c => { st with queue := st.queue ++ [c] }
  | .beginSend =>
    if st.processing then st
    else
      match st.queue with
      | [] => st
      | c :: _ => { st with processing := true, inflight := [c] }
  | .sendSuccess r =>
    match st.inflight with
    | [c] => ⟨st.queue.drop 1, [], false, st.deliveries ++ [.resolved c r]⟩
    | _ => st
  | .sendFailure e closedNow rec =>
    match st.inflight with
    | [c] =>
      if 0 < maxRetryCount ∧ isRetriableError e closedNow then
        match rec with
        | .rOk => { st with inflight := [], processing := false }
        | .rFail re => ⟨st.queue.drop 1, [], false, st.deliveries ++ [.rejected c re]⟩
      else ⟨st.queue.drop 1, [], false, st.deliveries ++ [.rejected c e]⟩
    | _ => st

/-- Run an event trace from a given state. -/
def muxRunFrom (maxRetryCount : Nat) (st : MuxState) (es : List MuxEvent) : MuxState :=
  es.foldl (muxStep maxRetryCount) st

/-- Run an event trace from the initial state. -/
def muxRun (maxRetryCount : Nat) (es : List MuxEvent) : MuxState :=
  muxRunFrom maxRetryCount MuxState.init es

/-- The commands submitted in a trace, in submission order. -/
def muxSubmissions (es : List MuxEvent) : List QueuedCmd :=
  es.filterMap (fun e => match e with | .submit c => some c | _ => none)

/-- Invariant tying a mux state to the submissions behind it: deliveries
followed by the still-queued commands list the submissions in order, the
in-flight command (if any) is the queue head, and nothing is in flight
while the drain flag is clear. -/
def MuxInv (subs : List QueuedCmd) (st : MuxState) : Prop :=
  st.deliveries.map Delivery.cmd ++ st.queue = subs
  ∧ (st.inflight = [] ∨ ∃ c, st.inflight = [c] ∧ st.queue.head? = some c)
  ∧ (st.processing = false → st.inflight = [])

theorem muxStep_inv (m : Nat) (subs : List QueuedCmd) (st : MuxState)
    (e : MuxEvent) (h : MuxInv subs st) :
    MuxInv (subs ++ muxSubmissions [e]) (muxStep m st e) := by
  obtain ⟨h1, h2, h3⟩ := h
  cases e with
  | submit c =>
    refine ⟨by simp [muxStep, muxSubmissions, ← h1], ?_, by simp [muxStep]; exact h3⟩
    rcases h2 with h2 | ⟨c', hc', hh⟩
    · exact Or.inl (by simp [muxStep, h2])
    · refine Or.inr ⟨c', by simp [muxStep, hc'], ?_⟩
      simp only [muxStep]
      cases hq : st.queue with
      | nil => rw [hq] at hh; simp at hh
      | cons x t => rw [hq] at hh; simpa using hh
  | beginSend =>
    simp only [muxStep, muxSubmissions, List.filterMap, List.append_nil]
    by_cases hp : st.processing
    · rw [if_pos hp]; exact ⟨h1, h2, h3⟩
    · rw [if_neg hp]
      have hifl : st.inflight = [] := h3 (by simpa using hp)
      cases hq : st.queue with
      | nil => exact ⟨h1, h2, h3⟩
      | cons c t =>
        refine ⟨by simpa [hq] using h1, ?_, by simp⟩
        exact Or.inr ⟨c, rfl, by simp [hq]⟩
  | sendSuccess r =>
    simp only [muxStep, muxSubmissions, List.filterMap, List.append_nil]
    cases hifl : st.inflight with
    | nil => exact ⟨h1, h2, h3⟩
    | cons c ifs =>
      cases ifs with
      | cons _ _ =>
        rcases h2 with h2 | ⟨c', hc', _⟩
        · rw [hifl] at h2; simp at h2
        · rw [hifl] at hc'; simp at hc'
      | nil =>
        rcases h2 with h2 | ⟨c', hc', hh⟩
        · rw [hifl] at h2; simp at h2
        · rw [hifl] at hc'
          simp only [List.cons.injEq] at hc'
          obtain ⟨rfl, -⟩ := hc'
          cases hq : st.queue with
          | nil => rw [hq] at hh; simp at hh
          | cons x t =>
            rw [hq] at hh
            simp only [List.head?_cons, Option.some.injEq] at hh
            subst hh
            refine ⟨?_, Or.inl rfl, fun _ => rfl⟩
            simp only [List.map_append, List.map_cons, List.map_nil, Delivery.cmd]
            rw [← h1, hq]
            simp
  | sendFailure e closedNow rec =>
    simp only [muxStep, muxSubmissions, List.filterMap, List.append_nil]
    cases hifl : st.inflight with
    | nil => exact ⟨h1, h2, h3⟩
    | cons c ifs =>
      cases ifs with
      | cons _ _ =>
        rcases h2 with h2 | ⟨c', hc', _⟩
        · rw [hifl] at h2; simp at h2
        · rw [hifl] at hc'; simp at hc'
      | nil =>
        rcases h2 with h2 | ⟨c', hc', hh⟩
        · rw [hifl] at h2; simp at h2
        · rw [hifl] at hc'
          simp only [List.cons.injEq] at hc'
          obtain ⟨rfl, -⟩ := hc'
          cases hq : st.queue with
          | nil => rw [hq] at hh; simp at hh
          | cons x t =>
            rw [hq] at hh
            simp only [List.head?_cons, Option.some.injEq] at hh
            subst hh
            by_cases hretry : 0 < m ∧ isRetriableError e closedNow
            · simp only [if_pos hretry]
              cases rec with
              | rOk =>
                rw [hq] at h1
                exact ⟨h1, Or.inl rfl, fun _ => rfl⟩
              | rFail re =>
                refine ⟨?_, Or.inl rfl, fun _ => rfl⟩
                simp only [List.map_append, List.map_cons, List.map_nil, Delivery.cmd]
                rw [← h1, hq]
                simp
            · simp only [if_neg hretry]
              refine ⟨?_, Or.inl rfl, fun _ => rfl⟩
              simp only [List.map_append, List.map_cons, List.map_nil, Delivery.cmd]
              rw [← h1, hq]
              simp

theorem muxRunFrom_inv (m : Nat) :
    ∀ (es : List MuxEvent) (st : MuxState) (subs : List QueuedCmd),
      MuxInv subs st →
      MuxInv (subs ++ muxSubmissions es) (muxRunFrom m st es)
  | [], st, subs, h => by simpa [muxRunFrom, muxSubmissions] using h
  | e :: es, st, subs, h => by
    have hstep := muxStep_inv m subs st e h
    have hrest := muxRunFrom_inv m es (muxStep m st e) (subs ++ muxSubmissions [e]) hstep
    have : muxSubmissions (e :: es) = muxSubmissions [e] ++ muxSubmissions es := by
      cases e <;> simp [muxSubmissions]
    rw [this]
    simpa [muxRunFrom, List.append_assoc] using hrest

theorem muxRun_inv (m : Nat) (es : List MuxEvent) :
    MuxInv (muxSubmissions es) (muxRun m es) := by
  have := muxRunFrom_inv m es MuxState.init []
    ⟨by simp [MuxState.init], Or.inl rfl, fun _ => rfl⟩
  simpa [muxRun] using this

/-- C1: over every interleaving of submissions and drain steps on one
connection, the deliveries made so far go to the callers in exactly
their submission order (the delivered prefix equals the corresponding
prefix of the submission sequence), and execution is strictly serial:
at most one command is in flight on the connection at any state. -/
theorem C1_mux_serial_ordering (m : Nat) (es : List MuxEvent) :
    (muxRun m es).deliveries.map Delivery.cmd
      = (muxSubmissions es).take (muxRun m es).deliveries.length
    ∧ (muxRun m es).inflight.length ≤ 1 := by
  obtain ⟨h1, h2, -⟩ := muxRun_inv m es
  constructor
  · rw [← h1]
    rw [show (muxRun m es).deliveries.length
        = ((muxRun m es).deliveries.map Delivery.cmd).length by simp]
    exact (List.take_left _ _).symm
  · rcases h2 with h2 | ⟨c, hc, -⟩
    · simp [h2]
    · simp [hc]

/-- C2: in the drain loop, a send failure classified retriable while the
retry budget is positive triggers a reconnect; when the reconnect
succeeds the head is not popped, the identical head command is taken in
flight again by the next drain iteration, and its caller is resolved
with the eventual reply rather than an error.  When the reconnect fails
the caller is rejected with the reconnect error and the head popped;
a non-retriable failure rejects the caller with the original error and
pops the head. -/
theorem C2_retry_keeps_head (m : Nat) (c : QueuedCmd) (t : List QueuedCmd)
    (ds : List Delivery) (e eNR re : ErrKind) (r : RValue)
    (h1 : isRetriableError e false = true) (h2 : 0 < m)
    (h3 : isRetriableError eNR false = false) :
    muxRunFrom m ⟨c :: t, [], false, ds⟩
        [.beginSend, .sendFailure e false .rOk, .beginSend, .sendSuccess r]
      = ⟨t, [], false, ds ++ [.resolved c r]⟩
    ∧ (muxRunFrom m ⟨c :: t, [], false, ds⟩
        [.beginSend, .sendFailure e false .rOk, .beginSend]).inflight = [c]
    ∧ muxRunFrom m ⟨c :: t, [], false, ds⟩
        [.beginSend, .sendFailure e false (.rFail re)]
      = ⟨t, [], false, ds ++ [.rejected c re]⟩
    ∧ muxRunFrom m ⟨c :: t, [], false, ds⟩
        [.beginSend, .sendFailure eNR false .rOk]
      = ⟨t, [], false, ds ++ [.rejected c eNR]⟩ := by
  refine ⟨?_, ?_, ?_, ?_⟩
  · simp [muxRunFrom, muxStep, h1, h2]
  · simp [muxRunFrom, muxStep, h1, h2]
  · simp [muxRunFrom, muxStep, h1, h2]
  · simp [muxRunFrom, muxStep, h3]

/-- Witness for `C2_retry_keeps_head`: a concrete GET command, a
connection-reset failure with budget 10, then a successful resend. -/
theorem C2_retry_keeps_head_witness :
    muxRunFrom 10 ⟨[⟨0, strBytes "GET", [.str (strBytes "k")]⟩], [], false, []⟩
        [.beginSend, .sendFailure .connReset false .rOk, .beginSend,
          .sendSuccess (.str (strBytes "v"))]
      = ⟨[], [], false,
          [.resolved ⟨0, strBytes "GET", [.str (strBytes "k")]⟩ (.str (strBytes "v"))]⟩ :=
  (C2_retry_keeps_head 10 ⟨0, strBytes "GET", [.str (strBytes "k")]⟩ [] []
    .connReset .errorReply .otherErr (.str (strBytes "v"))
    (by decide) (by decide) (by decide)).1

/-! ## Submission on a closed connection (executor.ts `exec`,
pipeline.ts `exec`) -/

/-- What a call to an executor's `exec` returns to the caller. -/
inductive ExecOutcome where
  /-- A promise rejected with `ConnectionClosedError`. -/
  | rejectedConnectionClosed
  /-- A pending promise whose record was queued for the drain. -/
  | pending
  /-- A promise already resolved with the `okReply` sentinel. -/
  | resolvedOk
deriving Repr, DecidableEq

/-- Embedding of `MuxExecutor.exec`: when the connection is closed,
return a rejected promise at once without queueing; otherwise append the
record to the FIFO and hand back its pending promise. -/
def muxExec (connClosed : Bool) (queue : List QueuedCmd) (c : QueuedCmd) :
    ExecOutcome × List QueuedCmd :=
  if connClosed then (.rejectedConnectionClosed, queue)
  else (.pending, queue ++ [c])

/-- A resolver-free command record, as queued by the pipeline and passed
to the protocol's batched `sendCommands`. -/
structure PipeCmd where
  command : List Nat
  args : List RedisValue
deriving Repr, DecidableEq

/-- Embedding of `PipelineExecutor.exec`: the closed flag of the
connection is available but never consulted — the command is appended to
the pipeline's list and the promise resolves immediately with `okReply`. -/
def pipelineExec (connClosed : Bool) (cmds : List PipeCmd) (c : PipeCmd) :
    ExecOutcome × List PipeCmd :=
  (.resolvedOk, cmds ++ [c])

/-- C9 (refuted as stated): a submission through the pipeline executor
after the connection is closed does not fail with `ConnectionClosed` —
it is queued and resolves with the OK sentinel. -/
theorem C9_pipeline_exec_ignores_closed :
    pipelineExec true [] ⟨strBytes "GET", []⟩
      = (.resolvedOk, [⟨strBytes "GET", []⟩])
    ∧ ExecOutcome.resolvedOk ≠ ExecOutcome.rejectedConnectionClosed := by
  exact ⟨rfl, by decide⟩

/-- C9 (amended): after the connection is closed, every submission
through the multiplexing executor fails immediately with
`ConnectionClosed` and touches neither the queue nor the network, while
a submission through the pipeline executor is still queued and resolves
with the OK sentinel. -/
theorem C9_closed_submission (queue : List QueuedCmd) (cmds : List PipeCmd)
    (c : QueuedCmd) (p : PipeCmd) :
    muxExec true queue c = (.rejectedConnectionClosed, queue)
    ∧ pipelineExec true cmds p = (.resolvedOk, cmds ++ [p]) :=
  ⟨rfl, rfl⟩

/-! ## Batched send (`sendCommands` in protocol/command.ts)

One `sendCommand` round trip either returns a reply, raises an
`ErrorReplyError` (the server's `-` reply), or raises some other
exception (transport fault, decode failure).  The loop below is the
embedding of `sendCommands` over an oracle assigning each command its
round-trip outcome. -/

/-- Outcome of one `sendCommand` round trip. -/
inductive CmdOutcome where
  | reply (v : RValue)
  | errReply (line : List Nat)
  | transport (e : ErrKind)
deriving Repr, DecidableEq

/-- An entry of the list `sendCommands` returns: `reply.value()` or the
caught `ErrorReplyError`. -/
inductive RawOrError where
  | raw (v : RValue)
  | err (line : List Nat)
deriving Repr, DecidableEq

/-- The entry pushed for a non-transport outcome (the transport case is
never pushed — `sendCommands` rethrows it). -/
def outcomeEntry : CmdOutcome → RawOrError
  | .reply v => .raw v
  | .errReply line => .err line
  | .transport _ => .raw .nil

/-- Embedding of `sendCommands`: iterate the commands in order; push the
reply value on success, push the caught `ErrorReplyError` as an entry,
and rethrow any other exception, aborting the loop. -/
def sendCommandsM (server : PipeCmd → CmdOutcome) :
    List PipeCmd → Except ErrKind (List RawOrError)
  | [] => .ok []
  | c :: rest =>
    match server c with
    | .reply v => (sendCommandsM server rest).map (fun l => .raw v :: l)
    | .errReply line => (sendCommandsM server rest).map (fun l => .err line :: l)
    | .transport e => .error e

/-- C6: the batched send returns one entry per command, in command
order: when no round trip raises a transport-level exception the result
is the ordered list of per-command outcomes — a server error-reply at
position i becomes the error value at position i instead of being
thrown — and when some round trip raises a transport-level exception
(all round trips before it being non-transport), the batch aborts and
that exception propagates. -/
theorem C6_send_commands_positional (server : PipeCmd → CmdOutcome) :
    (∀ cmds : List PipeCmd,
      (∀ c ∈ cmds, ∀ e, server c ≠ .transport e) →
      sendCommandsM server cmds = .ok (cmds.map (fun c => outcomeEntry (server c))))
    ∧ (∀ (pre post : List PipeCmd) (c : PipeCmd) (e : ErrKind),
      (∀ c' ∈ pre, ∀ e', server c' ≠ .transport e') →
      server c = .transport e →
      sendCommandsM server (pre ++ c :: post) = .error e) := by
  constructor
  · intro cmds
    induction cmds with
    | nil => intro _; rfl
    | cons c rest ih =>
      intro h
      have hc := h c (by simp)
      rw [sendCommandsM]
      match hsc : server c with
      | .reply v =>
        rw [ih (fun x hx e => h x (by simp [hx]) e)]
        simp [hsc, outcomeEntry, Except.map]
      | .errReply line =>
        rw [ih (fun x hx e => h x (by simp [hx]) e)]
        simp [hsc, outcomeEntry, Except.map]
      | .transport e => exact absurd hsc (hc e)
  · intro pre
    induction pre with
    | nil =>
      intro post c e _ hc
      rw [List.nil_append, sendCommandsM, hc]
    | cons p pre ih =>
      intro post c e hpre hc
      have hp := hpre p (by simp)
      rw [List.cons_append, sendCommandsM]
      have hrest := ih post c e (fun x hx e' => hpre x (by simp [hx]) e') hc
      match hsp : server p with
      | .reply v => rw [hrest]; simp [Except.map]
      | .errReply line => rw [hrest]; simp [Except.map]
      | .transport e' => exact absurd hsp (hp e')

/-- Server oracle for the `C6` witness: error-reply on `BAD`, transport
fault on `DROP`, `OK` otherwise. -/
def c6WitnessServer : PipeCmd → CmdOutcome := fun c =>
  if c.command = strBytes "BAD" then .errReply (strBytes "-WRONGTYPE")
  else if c.command = strBytes "DROP" then .transport .connReset
  else .reply (.str (strBytes "OK"))

/-- Witness for `C6_send_commands_positional`: a three-command batch
whose middle command gets a server error-reply produces a same-length
list with the error value in the middle; a batch whose second command
hits a connection reset aborts with that exception. -/
theorem C6_send_commands_positional_witness :
    sendCommandsM c6WitnessServer
        [⟨strBytes "SET", []⟩, ⟨strBytes "BAD", []⟩, ⟨strBytes "GET", []⟩]
      = .ok [.raw (.str (strBytes "OK")), .err (strBytes "-WRONGTYPE"),
          .raw (.str (strBytes "OK"))]
    ∧ sendCommandsM c6WitnessServer
        [⟨strBytes "SET", []⟩, ⟨strBytes "DROP", []⟩, ⟨strBytes "GET", []⟩]
      = .error .connReset := by
  constructor
  · have h := (C6_send_commands_positional c6WitnessServer).1
      [⟨strBytes "SET", []⟩, ⟨strBytes "BAD", []⟩, ⟨strBytes "GET", []⟩]
      (by intro c hc e; fin_cases hc <;> cases e <;> decide)
    rw [h]
    decide
  · exact (C6_send_commands_positional c6WitnessServer).2
      [⟨strBytes "SET", []⟩] [⟨strBytes "GET", []⟩] ⟨strBytes "DROP", []⟩ .connReset
      (by intro c hc e; fin_cases hc <;> cases e <;> decide) (by decide)

/-! ## The pipeline executor's flush (pipeline.ts) -/

/-- State of a `PipelineExecutor`: the queued commands and the
transactional flag. -/
structure PipelineState where
  commands : List PipeCmd
  tx : Bool
deriving Repr, DecidableEq

/-- The `MULTI` frame prepended in transactional mode. -/
def multiCmd : PipeCmd := ⟨strBytes "MULTI", []⟩

/-- The `EXEC` frame appended in transactional mode. -/
def execFrameCmd : PipeCmd := ⟨strBytes "EXEC", []⟩

/-- Embedding of `PipelineExecutor.flush`: copy the queued list and clear
it, frame the copy with `MULTI`/`EXEC` when `tx` is set, return the empty
list when there is nothing to flush, and otherwise delegate to the
batched send (whose exception, if any, is rethrown unchanged). -/
def flushPipeline (st : PipelineState) (server : PipeCmd → CmdOutcome) :
    Except ErrKind (List RawOrError) × PipelineState :=
  let commandsToFlush :=
    if st.tx then multiCmd :: st.commands ++ [execFrameCmd] else st.commands
  let cleared : PipelineState := { st with commands := [] }
  if commandsToFlush.length = 0 then (.ok [], cleared)
  else (sendCommandsM server commandsToFlush, cleared)

/-- C7 (refuted in one conjunct): with transactional mode on and an
empty snapshot, flush does not return the empty list — the emptiness
check runs after `MULTI`/`EXEC` are added, so the two frames are sent
and their two replies returned. -/
theorem C7_tx_empty_flush_not_empty :
    (flushPipeline ⟨[], true⟩ (fun _ => .reply (.str (strBytes "OK")))).1
      = .ok [.raw (.str (strBytes "OK")), .raw (.str (strBytes "OK"))]
    ∧ (flushPipeline ⟨[], true⟩ (fun _ => .reply (.str (strBytes "OK")))).1
      ≠ .ok [] := by
  exact ⟨by decide, by decide⟩

/-- C7 (amended): flush snapshots and clears the queued list before
sending, so after any flush — a transport fault included — the pipeline
is empty, and a following flush sees exactly the commands queued since;
in transactional mode the snapshot is framed by a prefixed `MULTI` and a
suffixed `EXEC`; and when the snapshot is empty a non-transactional
flush returns the empty list, while a transactional flush still sends
the `MULTI`/`EXEC` pair. -/
theorem C7_flush_snapshot_clear (st : PipelineState)
    (server server₂ : PipeCmd → CmdOutcome) (cs : List PipeCmd) :
    (flushPipeline st server).2.commands = []
    ∧ (st.tx = true →
        flushPipeline st server
          = (sendCommandsM server (multiCmd :: st.commands ++ [execFrameCmd]),
              { st with commands := [] }))
    ∧ (st.tx = false → st.commands = [] →
        flushPipeline st server = (.ok [], { st with commands := [] }))
    ∧ (flushPipeline
          { (flushPipeline st server).2 with
            commands := (flushPipeline st server).2.commands ++ cs } server₂).1
        = (flushPipeline ⟨cs, st.tx⟩ server₂).1 := by
  refine ⟨?_, ?_, ?_, ?_⟩
  · unfold flushPipeline
    by_cases h : (if st.tx then multiCmd :: st.commands ++ [execFrameCmd]
        else st.commands).length = 0
    · simp only [if_pos h]
    · simp only [if_neg h]
  · intro htx
    unfold flushPipeline
    rw [if_pos htx, if_neg (by simp)]
  · intro htx hempty
    unfold flushPipeline
    simp [htx, hempty]
  · have hcleared : (flushPipeline st server).2 = { st with commands := [] } := by
      unfold flushPipeline
      by_cases h : (if st.tx then multiCmd :: st.commands ++ [execFrameCmd]
          else st.commands).length = 0
      · simp only [if_pos h]
      · simp only [if_neg h]
    rw [hcleared]
    rfl

/-- Witness for `C7_flush_snapshot_clear`: a transactional pipeline
holding one `INCR` flushes `MULTI`, `INCR`, `EXEC` in order and is left
empty, and a non-transactional empty pipeline flushes to the empty
list. -/
theorem C7_flush_snapshot_clear_witness :
    flushPipeline ⟨[⟨strBytes "INCR", [.str (strBytes "c")]⟩], true⟩
        (fun _ => .reply (.str (strBytes "QUEUED")))
      = (.ok [.raw (.str (strBytes "QUEUED")), .raw (.str (strBytes "QUEUED")),
          .raw (.str (strBytes "QUEUED"))],
          ⟨[], true⟩)
    ∧ flushPipeline ⟨[], false⟩ (fun _ => .reply (.str (strBytes "OK")))
      = (.ok [], ⟨[], false⟩) := by
  constructor
  · have h := (C7_flush_snapshot_clear ⟨[⟨strBytes "INCR", [.str (strBytes "c")]⟩], true⟩
      (fun _ => .reply (.str (strBytes "QUEUED")))
      (fun _ => .reply (.str (strBytes "QUEUED"))) []).2.1 rfl
    rw [h]
    decide
  · exact (C7_flush_snapshot_clear ⟨[], false⟩ (fun _ => .reply (.str (strBytes "OK")))
      (fun _ => .reply (.str (strBytes "OK"))) []).2.2.1 rfl rfl

/-! ## Connection establishment (connection.ts `connect`) -/

/-- Outcome of one establishment attempt: dial and handshake succeeded;
`AUTH` was answered with an error reply (wrapped into
`AuthenticationError`, after which the socket is closed and the error
rethrown out of the inner try); or a transport error occurred during
dial or handshake. -/
inductive AttemptOutcome where
  | ok
  | authRejected
  | dialError (e : ErrKind)
deriving Repr, DecidableEq

/-- Errors surfaced by `connect`. -/
inductive ConnErr where
  | authenticationErr
  | transportErr (e : ErrKind)
deriving Repr, DecidableEq

/-- Embedding of `RedisConnection.connect`: attempt `i` is consulted; on
success the retry counter is reset; an `AuthenticationError` resets the
counter and is rethrown with no further attempt; any other error
increments the counter (comparing its previous value against
`maxRetryCount`), and either surfaces after resetting the counter or
recurses after the backoff delay.  Returns the result, the final retry
counter, and the number of attempts consumed. -/
def connectModel (attempts : Nat → AttemptOutcome) (i : Nat)
    (retryCount maxRetryCount : Nat) : Except ConnErr Unit × Nat × Nat :=
  match attempts i with
  | .ok => (.ok (), 0, 1)
  | .authRejected => (.error .authenticationErr, 0, 1)
  | .dialError e =>
    if maxRetryCount ≤ retryCount then (.error (.transportErr e), 0, 1)
    else
      let r := connectModel attempts (i + 1) (retryCount + 1) maxRetryCount
      (r.1, r.2.1, r.2.2 + 1)
  termination_by maxRetryCount - retryCount
  decreasing_by omega

/-- C8: when the attempt `connect` makes gets its `AUTH` rejected, the
caller receives exactly one `Authentication` error: the retry counter is
reset to zero rather than consumed, and no further attempt (no retry, no
reconnect) happens, whatever `maxRetryCount` and the current retry
counter are. -/
theorem C8_auth_rejected_terminal (attempts : Nat → AttemptOutcome)
    (i retryCount maxRetryCount : Nat) (h : attempts i = .authRejected) :
    connectModel attempts i retryCount maxRetryCount
      = (.error .authenticationErr, 0, 1) := by
  rw [connectModel, h]

/-- Witness for `C8_auth_rejected_terminal`: a server that always
rejects `AUTH`, a fresh counter, and the default budget of 10. -/
theorem C8_auth_rejected_terminal_witness :
    connectModel (fun _ => .authRejected) 0 0 10
      = (.error .authenticationErr, 0, 1) :=
  C8_auth_rejected_terminal (fun _ => .authRejected) 0 0 10 rfl

/-! ## The subscription message iterator (pubsub.ts `#_receive`) -/

/-- A yielded pub/sub record (`RedisPubSubMessage`). -/
structure PubSubMessage where
  pattern : Option RValue
  channel : RValue
  message : RValue
deriving Repr, DecidableEq

/-- What one loop iteration of `#_receive` does with the frame it read. -/
inductive ReceiveOutcome where
  /-- The iterator yielded a record to the consumer. -/
  | yielded (m : PubSubMessage)
  /-- The frame was consumed and dropped: no yield, no error, no
  reconnect. -/
  | dropped
  /-- The error was caught by the outer catch (`InvalidStateError`) and
  `forceReconnect` was set: the `finally` block reconnects and replays
  the subscriptions. -/
  | reconnectTriggered
  /-- An exception neither caught nor converted propagated out of the
  iterator to the consumer. -/
  | raised
deriving Repr, DecidableEq

/-- Embedding of one iteration of `#_receive` on a decoded frame:
`reply.array()` throws `InvalidStateError` for non-array frames (outer
catch → reconnect); a null array makes `rep[0]` throw a `TypeError`,
which matches neither catch clause and propagates; an array yields a
record only as `["message", channel, payload]` (exactly 3 elements) or
`["pmessage", pattern, channel, payload]` (exactly 4 elements), and is
otherwise dropped silently. -/
def receiveStep (reply : RedisReply) : ReceiveOutcome :=
  match reply.arrayAccess with
  | .error _ => .reconnectTriggered
  | .ok none => .raised
  | .ok (some rep) =>
    match rep with
    | [ev, ch, msg] =>
      if ev = .str (strBytes "message") then .yielded ⟨none, ch, msg⟩
      else .dropped
    | [ev, pat, ch, msg] =>
      if ev = .str (strBytes "pmessage") then .yielded ⟨some pat, ch, msg⟩
      else .dropped
    | _ => .dropped

/-- C10 (refuted in its "silently dropped" half): a null array frame is
not dropped silently — reading it makes the iterator raise the error to
the consumer. -/
theorem C10_null_array_raises :
    receiveStep (.array none) = .raised
    ∧ ReceiveOutcome.raised ≠ ReceiveOutcome.dropped := by
  exact ⟨rfl, by decide⟩

/-- C10 (amended): a record is yielded only for an array frame of the
exact shape `["message", channel, payload]` (3 elements) or
`["pmessage", pattern, channel, payload]` (4 elements); every other
non-null array frame — subscribe/unsubscribe acknowledgments included —
is consumed and silently dropped without yielding and without raising;
a non-array frame instead triggers the reconnect path, and a null array
frame raises an error out of the iterator. -/
theorem C10_receive_dispatch :
    (∀ (reply : RedisReply) (m : PubSubMessage), receiveStep reply = .yielded m →
      (∃ ch msg, reply = .array (some [.str (strBytes "message"), ch, msg])
        ∧ m = ⟨none, ch, msg⟩)
      ∨ (∃ pat ch msg, reply = .array (some [.str (strBytes "pmessage"), pat, ch, msg])
        ∧ m = ⟨some pat, ch, msg⟩))
    ∧ (∀ elems : List RValue,
        ¬(elems.head? = some (.str (strBytes "message")) ∧ elems.length = 3) →
        ¬(elems.head? = some (.str (strBytes "pmessage")) ∧ elems.length = 4) →
        receiveStep (.array (some elems)) = .dropped)
    ∧ (∀ body, receiveStep (.simple body) = .reconnectTriggered)
    ∧ (∀ body, receiveStep (.bulk body) = .reconnectTriggered)
    ∧ (∀ body, receiveStep (.integer body) = .reconnectTriggered)
    ∧ receiveStep (.array none) = .raised := by
  refine ⟨?_, ?_, fun _ => rfl, fun _ => rfl, fun _ => rfl, rfl⟩
  · intro reply m h
    match reply with
    | .simple _ => simp [receiveStep, RedisReply.arrayAccess] at h
    | .bulk _ => simp [receiveStep, RedisReply.arrayAccess] at h
    | .integer _ => simp [receiveStep, RedisReply.arrayAccess] at h
    | .array none => simp [receiveStep, RedisReply.arrayAccess] at h
    | .array (some rep) =>
      match rep with
      | [] => simp [receiveStep, RedisReply.arrayAccess] at h
      | [_] => simp [receiveStep, RedisReply.arrayAccess] at h
      | [_, _] => simp [receiveStep, RedisReply.arrayAccess] at h
      | [ev, ch, msg] =>
        simp only [receiveStep, RedisReply.arrayAccess] at h
        by_cases hev : ev = .str (strBytes "message")
        · rw [if_pos hev] at h
          subst hev
          left
          exact ⟨ch, msg, rfl, by
            cases h with
            | refl => rfl⟩
        · rw [if_neg hev] at h
          cases h
      | [ev, pat, ch, msg] =>
        simp only [receiveStep, RedisReply.arrayAccess] at h
        by_cases hev : ev = .str (strBytes "pmessage")
        · rw [if_pos hev] at h
          subst hev
          right
          exact ⟨pat, ch, msg, rfl, by
            cases h with
            | refl => rfl⟩
        · rw [if_neg hev] at h
          cases h
      | _ :: _ :: _ :: _ :: _ :: _ =>
        simp [receiveStep, RedisReply.arrayAccess] at h
  · intro elems h3 h4
    match elems with
    | [] => rfl
    | [_] => rfl
    | [_, _] => rfl
    | [ev, ch, msg] =>
      have hev : ¬(ev = .str (strBytes "message")) := by
        intro he
        exact h3 (by simp [he])
      simp only [receiveStep, RedisReply.arrayAccess]
      rw [if_neg hev]
    | [ev, pat, ch, msg] =>
      have hev : ¬(ev = .str (strBytes "pmessage")) := by
        intro he
        exact h4 (by simp [he])
      simp only [receiveStep, RedisReply.arrayAccess]
      rw [if_neg hev]
    | _ :: _ :: _ :: _ :: _ :: _ => rfl

/-- Witness for `C10_receive_dispatch`: a subscribe acknowledgment
`["subscribe", "news", 1]` is consumed and silently dropped; a
`["message", "news", "hello"]` frame yields the corresponding record. -/
theorem C10_receive_dispatch_witness :
    receiveStep (.array (some [.str (strBytes "subscribe"), .str (strBytes "news"),
        .int (some 1)])) = .dropped
    ∧ ((∃ ch msg, RedisReply.array (some [.str (strBytes "message"),
          .str (strBytes "news"), .str (strBytes "hello")])
            = .array (some [.str (strBytes "message"), ch, msg])
          ∧ (⟨none, .str (strBytes "news"), .str (strBytes "hello")⟩ : PubSubMessage)
            = ⟨none, ch, msg⟩)
        ∨ (∃ pat ch msg, RedisReply.array (some [.str (strBytes "message"),
            .str (strBytes "news"), .str (strBytes "hello")])
              = .array (some [.str (strBytes "pmessage"), pat, ch, msg])
            ∧ (⟨none, .str (strBytes "news"), .str (strBytes "hello")⟩ : PubSubMessage)
              = ⟨some pat, ch, msg⟩)) := by
  constructor
  · exact C10_receive_dispatch.2.1
      [.str (strBytes "subscribe"), .str (strBytes "news"), .int (some 1)]
      (by decide) (by decide)
  · exact C10_receive_dispatch.1
      (.array (some [.str (strBytes "message"), .str (strBytes "news"),
        .str (strBytes "hello")]))
      ⟨none, .str (strBytes "news"), .str (strBytes "hello")⟩
      (by decide)
